import Mathlib

/-!
Shallow embedding of src/function-source/main.py (GCP Secret Manager →
GitLab pipeline trigger Cloud Function).

Modelling choices:
- Python str values are Lean String; the Python string operations used by
  the source (split on a one-character separator, split on a multi-character
  separator, strip, containment test with the in operator) are embedded as
  executable functions on the underlying character lists.
- Python dicts of strings are association lists (List (String × String));
  assignment d[k] = v overwrites in place when the key is present and
  appends otherwise, lookup d.get(k) returns the value at the first
  matching key or none.
- The Secret Manager client is an oracle (service : String → Option
  (List (String × String))); none models any exception raised by
  get_secret (not found, permission denied, transient failure).
- The outbound HTTP POST is an oracle (http : String → List (String ×
  String) → HttpResult) from the request URL and form data to either a
  network error (a requests exception before any response) or a response
  with a status code and parsed JSON body.
- handle_secret_event returns an Outcome (which of the terminal states of
  the handler was reached; Outcome.triggerError models the re-raise in the
  except branch, every other outcome models a normal return) together with
  the trace of the observable effects performed, in order: fetchLabels is
  the get_secret_labels call (line 203), filterCheck the
  should_trigger_pipeline call (line 205), bypassNote the cannot-verify
  print for deletions (line 211), triggerCall the requests.post performed
  inside trigger_gitlab_pipeline (line 141).
-/

namespace SecretTrigger

/-- Python substring containment (sub in s): some suffix of s starts
with sub. -/
def strContains (s sub : String) : Bool :=
  s.data.tails.any fun t => sub.data.isPrefixOf t

/-- Python str.strip restricted to the whitespace characters of
Char.isWhitespace: drop leading and trailing whitespace. -/
def trimL (l : List Char) : List Char :=
  ((l.dropWhile Char.isWhitespace).reverse.dropWhile Char.isWhitespace).reverse

/-- Python s.split(sep) for a one-character separator sep. -/
def splitChar (c : Char) (s : String) : List String :=
  (s.data.splitOn c).map String.mk

/-- The part of l before the first occurrence of sep (Python
s.split(sep)[0] for a multi-character separator). -/
def dropAfterSep (sep : List Char) : List Char → List Char
  | [] => []
  | c :: rest => if sep.isPrefixOf (c :: rest) then [] else c :: dropAfterSep sep rest

/-- Lines 34-35 and line 199 of main.py: cut the secret resource path at
the first "/versions/" separator when present, otherwise keep it. -/
def stripVersion (s : String) : String :=
  if strContains s "/versions/" then String.mk (dropAfterSep "/versions/".data s.data) else s

/-- Python dict lookup d.get(k): value at the first matching key. -/
def dictGet (d : List (String × String)) (k : String) : Option String :=
  (d.find? fun kv => kv.1 == k).map Prod.snd

/-- Python dict assignment d[k] = v: overwrite in place when present,
append otherwise. -/
def dictInsert (d : List (String × String)) (k v : String) : List (String × String) :=
  if d.any fun kv => kv.1 == k then
    d.map fun kv => if kv.1 == k then (k, v) else kv
  else d ++ [(k, v)]

/-- main.py lines 21-41, get_secret_labels: strip the version suffix, ask
the service for the secret, return its labels; on any failure return the
empty mapping. -/
def get_secret_labels (service : String → Option (List (String × String)))
    (secret_name : String) : List (String × String) :=
  match service (stripVersion secret_name) with
  | some labels => labels
  | none => []

/-- main.py lines 44-63, should_trigger_pipeline: true when no filter is
configured, otherwise every required key must be present with an equal
value. -/
def should_trigger_pipeline (labels required_labels : List (String × String)) : Bool :=
  if required_labels.isEmpty then true
  else required_labels.all fun kv => dictGet labels kv.1 == some kv.2

/-- Loop body of main.py lines 80-84: strip the token, skip it when it
has no equals sign, otherwise split on the first equals sign and insert
the stripped key and value. -/
def parseStep (labels : List (String × String)) (pairRaw : List Char) :
    List (String × String) :=
  let pair := trimL pairRaw
  if pair.contains '=' then
    let key := pair.takeWhile fun c => c != '='
    let value := (pair.dropWhile fun c => c != '=').drop 1
    dictInsert labels (String.mk (trimL key)) (String.mk (trimL value))
  else labels

/-- main.py lines 66-86, parse_required_labels: split on commas, fold the
loop body over the tokens starting from the empty mapping. -/
def parse_required_labels (labels_str : String) : List (String × String) :=
  if labels_str = "" then []
  else (labels_str.data.splitOn ',').foldl parseStep []

/-- main.py lines 89-104, extract_secret_info: split the path on slashes;
segment 1 is the project, segment 3 the secret name, defaulting to
"unknown" when the path is too short. -/
def extract_secret_info (resource_name : String) : String × String :=
  let parts := splitChar '/' resource_name
  (parts.getD 1 "unknown", parts.getD 3 "unknown")

/-- Parsed JSON body of the trigger response; id and web_url may be
absent. -/
structure RespBody where
  id : Option Nat
  web_url : Option String
deriving DecidableEq

/-- Result of the outbound POST: a requests-level failure before any
response, or a response with a status code and body. -/
inductive HttpResult where
  | networkError
  | response (status : Nat) (body : RespBody)

/-- main.py lines 107-144, trigger_gitlab_pipeline: build the trigger URL
and form data, POST, raise (error) on a network failure or a status in
400..599 (requests raise_for_status), otherwise return the parsed body. -/
def trigger_gitlab_pipeline (http : String → List (String × String) → HttpResult)
    (gitlab_url project_id trigger_token ref : String)
    (vars : List (String × String)) : Except Unit RespBody :=
  let url := gitlab_url ++ "/api/v4/projects/" ++ project_id ++ "/trigger/pipeline"
  let data := [("token", trigger_token), ("ref", ref)] ++
    (if vars.isEmpty then []
     else vars.map fun kv => ("variables[" ++ kv.1 ++ "]", kv.2))
  match http url data with
  | .networkError => .error ()
  | .response status body =>
    if 400 ≤ status ∧ status < 600 then .error () else .ok body

/-- The protoPayload envelope of the audit-log event; either field may be
missing. -/
structure ProtoPayload where
  methodName : Option String
  resourceName : Option String

/-- The inbound event data; the protoPayload envelope may be missing. -/
structure EventData where
  protoPayload : Option ProtoPayload

/-- Environment configuration, already resolved with the defaults of
main.py lines 180-185 (so gitlab_url defaults to https gitlab.com,
gitlab_ref to main, the rest to the empty string). -/
structure Config where
  gcp_project_id : String
  gitlab_url : String
  gitlab_project_id : String
  gitlab_trigger_token : String
  gitlab_ref : String
  required_labels_str : String

/-- main.py lines 162-163: event_data.get with default the empty
envelope, then .get with default the empty string. -/
def methodNameOf (ev : EventData) : String :=
  ((ev.protoPayload.getD ⟨none, none⟩).methodName).getD ""

/-- main.py line 164: resourceName with the same defaulting. -/
def resourceNameOf (ev : EventData) : String :=
  ((ev.protoPayload.getD ⟨none, none⟩).resourceName).getD ""

/-- main.py lines 169-177: ordered substring checks on methodName; none
models the ignored-method early return. -/
def classify_method (method_name : String) : Option String :=
  if strContains method_name "CreateSecret" then some "secret_created"
  else if strContains method_name "AddSecretVersion" then some "secret_updated"
  else if strContains method_name "DeleteSecret" then some "secret_deleted"
  else none

/-- Observable effects of one invocation, in program order. -/
inductive Effect where
  | fetchLabels (path : String)
  | filterCheck (labels required : List (String × String))
  | bypassNote
  | triggerCall
deriving DecidableEq

/-- Terminal state of one invocation. Only triggerError models an
exception propagating out of the handler; every other outcome is a normal
return. -/
inductive Outcome where
  | unhandled
  | configError
  | filtered
  | triggerOk (pipeline_id pipeline_url : String)
  | triggerError
deriving DecidableEq

/-- main.py lines 214-220: the pipeline variables passed to the trigger
call. -/
def pipelineVariables (event_type secret_name resource_name gcp_project_id : String) :
    List (String × String) :=
  [("SECRET_EVENT_TYPE", event_type), ("SECRET_NAME", secret_name),
   ("SECRET_RESOURCE", resource_name), ("GCP_PROJECT_ID", gcp_project_id),
   ("TRIGGERED_BY", "gcp-secret-manager-webhook")]

/-- main.py lines 223-241: call trigger_gitlab_pipeline; on success
extract id and web_url with the placeholders unknown and N/A for absent
fields; on a requests exception re-raise (triggerError). -/
def runTrigger (http : String → List (String × String) → HttpResult)
    (cfg : Config) (event_type secret_name resource_name : String) : Outcome :=
  match trigger_gitlab_pipeline http cfg.gitlab_url cfg.gitlab_project_id
      cfg.gitlab_trigger_token cfg.gitlab_ref
      (pipelineVariables event_type secret_name resource_name cfg.gcp_project_id) with
  | .error _ => .triggerError
  | .ok body => .triggerOk ((body.id.map toString).getD "unknown") (body.web_url.getD "N/A")

/-- main.py lines 148-241, handle_secret_event: classify, validate the
configuration, parse the filter, check labels unless the event is a
deletion or no filter is set, then trigger. -/
def handle_secret_event (service : String → Option (List (String × String)))
    (http : String → List (String × String) → HttpResult)
    (cfg : Config) (ev : EventData) : Outcome × List Effect :=
  let method_name := methodNameOf ev
  let resource_name := resourceNameOf ev
  match classify_method method_name with
  | none => (.unhandled, [])
  | some event_type =>
    if cfg.gitlab_project_id = "" ∨ cfg.gitlab_trigger_token = "" then (.configError, [])
    else
      let required_labels := parse_required_labels cfg.required_labels_str
      let secret_name := (extract_secret_info resource_name).2
      let secret_path := stripVersion resource_name
      if event_type ≠ "secret_deleted" ∧ ¬ required_labels.isEmpty then
        let labels := get_secret_labels service secret_path
        if ¬ should_trigger_pipeline labels required_labels then
          (.filtered, [.fetchLabels secret_path, .filterCheck labels required_labels])
        else
          (runTrigger http cfg event_type secret_name resource_name,
           [.fetchLabels secret_path, .filterCheck labels required_labels, .triggerCall])
      else if event_type = "secret_deleted" ∧ ¬ required_labels.isEmpty then
        (runTrigger http cfg event_type secret_name resource_name, [.bypassNote, .triggerCall])
      else
        (runTrigger http cfg event_type secret_name resource_name, [.triggerCall])

/-! Helper lemmas about the embedded string operations. -/

theorem isPrefixOf_eq_true (l₁ l₂ : List Char) : l₁.isPrefixOf l₂ = true ↔ l₁ <+: l₂ := by
  exact List.isPrefixOf_iff_prefix

theorem strContains_iff (s sub : String) : strContains s sub = true ↔ sub.data <:+: s.data := by
  unfold strContains
  rw [List.any_eq_true]
  constructor
  · rintro ⟨t, ht, hp⟩
    rw [List.mem_tails] at ht
    rw [isPrefixOf_eq_true] at hp
    exact List.infix_iff_prefix_suffix.mpr ⟨t, hp, ht⟩
  · intro h
    obtain ⟨t, hp, ht⟩ := List.infix_iff_prefix_suffix.mp h
    exact ⟨t, (List.mem_tails _ _).mpr ht, (isPrefixOf_eq_true _ _).mpr hp⟩

theorem dropAfterSep_isPre (sep l : List Char) : dropAfterSep sep l <+: l := by
  induction l with
  | nil => exact ⟨[], rfl⟩
  | cons c rest ih =>
    rw [show dropAfterSep sep (c :: rest) =
        if sep.isPrefixOf (c :: rest) then [] else c :: dropAfterSep sep rest from rfl]
    split
    · exact ⟨c :: rest, rfl⟩
    · obtain ⟨u, hu⟩ := ih
      exact ⟨u, by rw [List.cons_append, hu]⟩

theorem dropAfterSep_no_occurrence (sep : List Char) (hsep : sep ≠ []) (l : List Char) :
    ∀ t ∈ (dropAfterSep sep l).tails, sep.isPrefixOf t = false := by
  have hnil : sep.isPrefixOf ([] : List Char) = false := by
    cases sep with
    | nil => exact absurd rfl hsep
    | cons a as => rfl
  induction l with
  | nil =>
    intro t ht
    have h0 : dropAfterSep sep ([] : List Char) = [] := rfl
    rw [h0] at ht
    have ht0 : t = [] := by simpa using ht
    rw [ht0]; exact hnil
  | cons c rest ih =>
    intro t ht
    rw [show dropAfterSep sep (c :: rest) =
        if sep.isPrefixOf (c :: rest) then [] else c :: dropAfterSep sep rest from rfl] at ht
    by_cases hc : sep.isPrefixOf (c :: rest) = true
    · rw [if_pos hc] at ht
      have ht0 : t = [] := by simpa using ht
      rw [ht0]; exact hnil
    · rw [if_neg hc] at ht
      rw [List.tails_cons] at ht
      rcases List.mem_cons.mp ht with h1 | h2
      · subst h1
        cases hbv : sep.isPrefixOf (c :: dropAfterSep sep rest) with
        | false => rfl
        | true =>
          exfalso
          rw [isPrefixOf_eq_true] at hbv
          have hpre : (c :: dropAfterSep sep rest) <+: (c :: rest) := by
            obtain ⟨u, hu⟩ := dropAfterSep_isPre sep rest
            exact ⟨u, by rw [List.cons_append, hu]⟩
          have hcr : sep <+: c :: rest := hbv.trans hpre
          rw [← isPrefixOf_eq_true] at hcr
          exact hc hcr
      · exact ih t h2

theorem strContains_stripVersion (s : String) :
    strContains (stripVersion s) "/versions/" = false := by
  unfold stripVersion
  split
  · unfold strContains
    rw [List.any_eq_false]
    intro t ht hb
    have h := dropAfterSep_no_occurrence "/versions/".data (by decide) s.data t ht
    rw [h] at hb
    exact Bool.noConfusion hb
  · rename_i hc
    simpa using hc

theorem stripVersion_idem (s : String) : stripVersion (stripVersion s) = stripVersion s := by
  have h := strContains_stripVersion s
  conv_lhs => rw [stripVersion]
  rw [if_neg (by simp [h])]

/-- C1: should_trigger_pipeline is true exactly when every required pair
is present in the fetched labels with an equal value; an empty filter is
always true and a nonempty filter against empty labels is always false. -/
theorem should_trigger_pipeline_spec (labels required : List (String × String)) :
    (should_trigger_pipeline labels required = true ↔
      ∀ kv ∈ required, dictGet labels kv.1 = some kv.2)
    ∧ should_trigger_pipeline labels [] = true
    ∧ (required ≠ [] → should_trigger_pipeline [] required = false) := by
  refine ⟨?_, rfl, ?_⟩
  · cases required with
    | nil => simp [should_trigger_pipeline]
    | cons kv rest => simp [should_trigger_pipeline, List.all_eq_true]
  · intro h
    cases required with
    | nil => exact absurd rfl h
    | cons kv rest => simp [should_trigger_pipeline, dictGet]

/-- Witness for C1 at a concrete input: a nonempty filter against empty
labels evaluates false. -/
theorem should_trigger_pipeline_spec_witness :
    should_trigger_pipeline [] [("a", "1")] = false :=
  (should_trigger_pipeline_spec [] [("a", "1")]).2.2 (by decide)

/-- C10: get_secret_labels queries the version-stripped path, so applying
it to a path or to the stripped form of that path is interchangeable, and
stripping is idempotent. -/
theorem get_secret_labels_strip_interchangeable
    (service : String → Option (List (String × String))) (p : String) :
    get_secret_labels service p = get_secret_labels service (stripVersion p)
    ∧ stripVersion (stripVersion p) = stripVersion p := by
  refine ⟨?_, stripVersion_idem p⟩
  unfold get_secret_labels
  rw [stripVersion_idem]

theorem dropWhile_eq_self_of (p : Char → Bool) (l : List Char) (h : ∀ c ∈ l, ¬ p c) :
    l.dropWhile p = l := by
  cases l with
  | nil => rfl
  | cons c rest =>
    have hc : ¬ p c := h c (List.mem_cons_self c rest)
    simp [List.dropWhile_cons, hc]

theorem trimL_eq_self {l : List Char} (h : ∀ c ∈ l, ¬ Char.isWhitespace c) : trimL l = l := by
  unfold trimL
  rw [dropWhile_eq_self_of _ l h]
  rw [dropWhile_eq_self_of _ l.reverse fun c hc => h c (List.mem_reverse.mp hc)]
  exact List.reverse_reverse l

theorem trimL_subset (l : List Char) : ∀ c ∈ trimL l, c ∈ l := by
  intro c h
  unfold trimL at h
  rw [List.mem_reverse] at h
  have h1 := (List.dropWhile_sublist Char.isWhitespace).subset h
  rw [List.mem_reverse] at h1
  exact (List.dropWhile_sublist Char.isWhitespace).subset h1

theorem takeWhile_append_first (p : Char → Bool) (a : List Char) (c : Char) (b : List Char)
    (ha : ∀ x ∈ a, p x) (hc : ¬ p c) :
    (a ++ c :: b).takeWhile p = a ∧ (a ++ c :: b).dropWhile p = c :: b := by
  induction a with
  | nil => simp [List.takeWhile_cons, List.dropWhile_cons, hc]
  | cons x xs ih =>
    have hx : p x := ha x (List.mem_cons_self x xs)
    have ihh := ih fun y hy => ha y (List.mem_cons_of_mem x hy)
    simp [List.takeWhile_cons, List.dropWhile_cons, hx, ihh.1, ihh.2]

theorem splitOn_eq_single {x : Char} {l : List Char} (h : x ∉ l) : l.splitOn x = [l] := by
  show l.splitOnP (· == x) = [l]
  exact List.splitOnP_eq_single _ _ fun y hy hyx => h (beq_iff_eq.mp hyx ▸ hy)

theorem parseStep_skip (labels : List (String × String)) (t : List Char) (h : '=' ∉ t) :
    parseStep labels t = labels := by
  have hmem : '=' ∉ trimL t := fun hm => h (trimL_subset t '=' hm)
  simp [parseStep, hmem]

theorem parseStep_pair (labels : List (String × String)) (k v : String)
    (hkeq : '=' ∉ k.data)
    (hkw : ∀ c ∈ k.data, ¬ Char.isWhitespace c) (hvw : ∀ c ∈ v.data, ¬ Char.isWhitespace c) :
    parseStep labels (k.data ++ '=' :: v.data) = dictInsert labels k v := by
  have htr : trimL (k.data ++ '=' :: v.data) = k.data ++ '=' :: v.data := by
    apply trimL_eq_self
    intro c hcm
    rcases List.mem_append.mp hcm with h1 | h2
    · exact hkw c h1
    · rcases List.mem_cons.mp h2 with h3 | h4
      · rw [h3]; decide
      · exact hvw c h4
  have hcont : (k.data ++ '=' :: v.data).contains '=' = true :=
    List.elem_iff.mpr (List.mem_append.mpr (Or.inr (List.mem_cons_self _ _)))
  have hsplit := takeWhile_append_first (fun c => c != '=') k.data '=' v.data
    (fun x hx => bne_iff_ne.mpr fun he => hkeq (he ▸ hx)) (by decide)
  simp only [parseStep, htr, hcont, if_true, hsplit.1, hsplit.2, List.drop_succ_cons,
    List.drop_zero, trimL_eq_self hkw, trimL_eq_self hvw]

/-- C7: parse_required_labels on the empty string and on the three
spec examples, with two general facts: an input all of whose comma
tokens lack an equals sign parses to the empty mapping, and a single
key=value token splits on its first equals sign only, so the value may
itself contain equals signs. -/
theorem parse_required_labels_spec (s k v : String)
    (hs : ∀ t ∈ s.data.splitOn ',', '=' ∉ t)
    (hkeq : '=' ∉ k.data) (hkc : ',' ∉ k.data) (hvc : ',' ∉ v.data)
    (hkw : ∀ c ∈ k.data, ¬ Char.isWhitespace c) (hvw : ∀ c ∈ v.data, ¬ Char.isWhitespace c) :
    parse_required_labels "" = []
    ∧ parse_required_labels "env=prod, trigger=true" = [("env", "prod"), ("trigger", "true")]
    ∧ parse_required_labels "bad,env=prod" = [("env", "prod")]
    ∧ parse_required_labels s = []
    ∧ parse_required_labels (k ++ "=" ++ v) = [(k, v)] := by
  have hdata : (k ++ "=" ++ v).data = k.data ++ '=' :: v.data := by
    rw [String.data_append, String.data_append, List.append_assoc]
    rfl
  refine ⟨rfl, by rfl, by rfl, ?_, ?_⟩
  · unfold parse_required_labels
    split
    · rfl
    · have hfold : ∀ (ts : List (List Char)), (∀ t ∈ ts, '=' ∉ t) →
          ts.foldl parseStep [] = [] := by
        intro ts
        induction ts with
        | nil => intro _; rfl
        | cons t ts ih =>
          intro hts
          rw [List.foldl_cons, parseStep_skip [] t (hts t (List.mem_cons_self t ts))]
          exact ih fun t1 ht1 => hts t1 (List.mem_cons_of_mem t ht1)
      exact hfold _ hs
  · have hmem : ',' ∉ k.data ++ '=' :: v.data := by
      intro hcm
      rcases List.mem_append.mp hcm with h1 | h2
      · exact hkc h1
      · rcases List.mem_cons.mp h2 with h3 | h4
        · exact absurd h3 (by decide)
        · exact hvc h4
    unfold parse_required_labels
    split
    · rename_i he
      exfalso
      have hd : (k ++ "=" ++ v).data = [] := by rw [he]
      rw [hdata] at hd
      simp at hd
    · rw [hdata, splitOn_eq_single hmem, List.foldl_cons, List.foldl_nil,
        parseStep_pair [] k v hkeq hkw hvw]
      rfl

/-- Witness for C7 at concrete inputs: tokens without an equals sign are
skipped, and a value containing an equals sign survives intact. -/
theorem parse_required_labels_spec_witness :
    parse_required_labels "bad, nope" = [] ∧ parse_required_labels "env=a=b" = [("env", "a=b")] := by
  have h := parse_required_labels_spec "bad, nope" "env" "a=b"
    (by decide) (by decide) (by decide) (by decide) (by decide) (by decide)
  exact ⟨h.2.2.2.1, h.2.2.2.2⟩

/-- C8: extract_secret_info on the two spec examples, and in general on
any slash-joined list of slash-free segments it returns segment 1 as the
project and segment 3 as the secret name, with the placeholder unknown
when the path has too few segments. -/
theorem extract_secret_info_spec (segs : List (List Char))
    (hne : segs ≠ []) (hsl : ∀ l ∈ segs, '/' ∉ l) :
    extract_secret_info "projects/p1/secrets/s1/versions/3" = ("p1", "s1")
    ∧ extract_secret_info "short" = ("unknown", "unknown")
    ∧ extract_secret_info (String.mk (List.intercalate ['/'] segs)) =
        ((segs.map String.mk).getD 1 "unknown", (segs.map String.mk).getD 3 "unknown") := by
  refine ⟨by rfl, by rfl, ?_⟩
  simp only [extract_secret_info, splitChar]
  rw [List.splitOn_intercalate segs '/' hsl hne]

/-- Witness for C8 at a concrete input: a two-segment path yields the
second segment as the project and the placeholder for the secret name. -/
theorem extract_secret_info_spec_witness :
    extract_secret_info "a/b" = ("b", "unknown") := by
  have h := (extract_secret_info_spec [['a'], ['b']] (by decide) (by decide)).2.2
  exact h

/-! Helper lemmas about the handler: one computation lemma per control
path of handle_secret_event. -/

theorem strContains_eq_false {s sub : String} (h : ¬ sub.data <:+: s.data) :
    strContains s sub = false := by
  cases hv : strContains s sub with
  | false => rfl
  | true => exact absurd ((strContains_iff s sub).mp hv) h

theorem should_trigger_nil_false {required : List (String × String)} (h : required ≠ []) :
    should_trigger_pipeline [] required = false := by
  cases required with
  | nil => exact absurd rfl h
  | cons kv rest => simp [should_trigger_pipeline, dictGet]

theorem isEmpty_false_of_ne_nil {l : List (String × String)} (h : l ≠ []) :
    l.isEmpty = false := by
  cases hv : l with
  | nil => exact absurd hv h
  | cons a t => rfl

theorem handle_unhandled (service : String → Option (List (String × String)))
    (http : String → List (String × String) → HttpResult) (cfg : Config) (ev : EventData)
    (h : classify_method (methodNameOf ev) = none) :
    handle_secret_event service http cfg ev = (.unhandled, []) := by
  simp only [handle_secret_event, h]

theorem handle_configError (service : String → Option (List (String × String)))
    (http : String → List (String × String) → HttpResult) (cfg : Config) (ev : EventData)
    (et : String) (hcl : classify_method (methodNameOf ev) = some et)
    (hmiss : cfg.gitlab_project_id = "" ∨ cfg.gitlab_trigger_token = "") :
    handle_secret_event service http cfg ev = (.configError, []) := by
  simp only [handle_secret_event, hcl]
  rw [if_pos hmiss]

theorem handle_nofilter (service : String → Option (List (String × String)))
    (http : String → List (String × String) → HttpResult) (cfg : Config) (ev : EventData)
    (et : String) (hcl : classify_method (methodNameOf ev) = some et)
    (hp : cfg.gitlab_project_id ≠ "") (ht : cfg.gitlab_trigger_token ≠ "")
    (hreq : parse_required_labels cfg.required_labels_str = []) :
    handle_secret_event service http cfg ev =
      (runTrigger http cfg et (extract_secret_info (resourceNameOf ev)).2 (resourceNameOf ev),
       [Effect.triggerCall]) := by
  simp only [handle_secret_event, hcl]
  rw [if_neg (not_or.mpr ⟨hp, ht⟩)]
  simp [hreq]

theorem handle_deleted_filter (service : String → Option (List (String × String)))
    (http : String → List (String × String) → HttpResult) (cfg : Config) (ev : EventData)
    (hcl : classify_method (methodNameOf ev) = some "secret_deleted")
    (hp : cfg.gitlab_project_id ≠ "") (ht : cfg.gitlab_trigger_token ≠ "")
    (hreq : parse_required_labels cfg.required_labels_str ≠ []) :
    handle_secret_event service http cfg ev =
      (runTrigger http cfg "secret_deleted" (extract_secret_info (resourceNameOf ev)).2
        (resourceNameOf ev),
       [Effect.bypassNote, Effect.triggerCall]) := by
  simp only [handle_secret_event, hcl]
  rw [if_neg (not_or.mpr ⟨hp, ht⟩)]
  simp [isEmpty_false_of_ne_nil hreq]

theorem handle_filter (service : String → Option (List (String × String)))
    (http : String → List (String × String) → HttpResult) (cfg : Config) (ev : EventData)
    (et : String) (hcl : classify_method (methodNameOf ev) = some et)
    (hdel : et ≠ "secret_deleted")
    (hp : cfg.gitlab_project_id ≠ "") (ht : cfg.gitlab_trigger_token ≠ "")
    (hreq : parse_required_labels cfg.required_labels_str ≠ []) :
    handle_secret_event service http cfg ev =
      (if ¬ should_trigger_pipeline (get_secret_labels service (stripVersion (resourceNameOf ev)))
          (parse_required_labels cfg.required_labels_str) then
        (Outcome.filtered,
         [Effect.fetchLabels (stripVersion (resourceNameOf ev)),
          Effect.filterCheck (get_secret_labels service (stripVersion (resourceNameOf ev)))
            (parse_required_labels cfg.required_labels_str)])
      else
        (runTrigger http cfg et (extract_secret_info (resourceNameOf ev)).2 (resourceNameOf ev),
         [Effect.fetchLabels (stripVersion (resourceNameOf ev)),
          Effect.filterCheck (get_secret_labels service (stripVersion (resourceNameOf ev)))
            (parse_required_labels cfg.required_labels_str),
          Effect.triggerCall])) := by
  simp only [handle_secret_event, hcl]
  rw [if_neg (not_or.mpr ⟨hp, ht⟩)]
  simp [isEmpty_false_of_ne_nil hreq, hdel]

theorem runTrigger_networkError (cfg : Config) (et sn rn : String) :
    runTrigger (fun _ _ => HttpResult.networkError) cfg et sn rn = .triggerError := rfl

theorem runTrigger_response (status : Nat) (body : RespBody) (cfg : Config) (et sn rn : String)
    (h : ¬ (400 ≤ status ∧ status < 600)) :
    runTrigger (fun _ _ => HttpResult.response status body) cfg et sn rn =
      .triggerOk ((body.id.map toString).getD "unknown") (body.web_url.getD "N/A") := by
  unfold runTrigger trigger_gitlab_pipeline
  simp [h]

theorem runTrigger_response_fail (status : Nat) (body : RespBody) (cfg : Config)
    (et sn rn : String) (h : 400 ≤ status ∧ status < 600) :
    runTrigger (fun _ _ => HttpResult.response status body) cfg et sn rn = .triggerError := by
  unfold runTrigger trigger_gitlab_pipeline
  simp [h.1, h.2]

theorem handle_shape (service : String → Option (List (String × String)))
    (http : String → List (String × String) → HttpResult) (cfg : Config) (ev : EventData) :
    (handle_secret_event service http cfg ev = (.unhandled, [])
      ∨ handle_secret_event service http cfg ev = (.configError, [])
      ∨ (∃ path l r, handle_secret_event service http cfg ev =
          (.filtered, [Effect.fetchLabels path, Effect.filterCheck l r])))
    ∨ (∃ et eff, handle_secret_event service http cfg ev =
        (runTrigger http cfg et (extract_secret_info (resourceNameOf ev)).2 (resourceNameOf ev),
          eff)
        ∧ Effect.triggerCall ∈ eff) := by
  cases hcl : classify_method (methodNameOf ev) with
  | none => exact Or.inl (Or.inl (handle_unhandled service http cfg ev hcl))
  | some et =>
    by_cases hmiss : cfg.gitlab_project_id = "" ∨ cfg.gitlab_trigger_token = ""
    · exact Or.inl (Or.inr (Or.inl (handle_configError service http cfg ev et hcl hmiss)))
    · rw [not_or] at hmiss
      obtain ⟨hp, ht⟩ := hmiss
      by_cases hreq : parse_required_labels cfg.required_labels_str = []
      · exact Or.inr ⟨et, [Effect.triggerCall],
          handle_nofilter service http cfg ev et hcl hp ht hreq, by simp⟩
      · by_cases hdel : et = "secret_deleted"
        · subst hdel
          exact Or.inr ⟨"secret_deleted", [Effect.bypassNote, Effect.triggerCall],
            handle_deleted_filter service http cfg ev hcl hp ht hreq, by simp⟩
        · rw [handle_filter service http cfg ev et hcl hdel hp ht hreq]
          by_cases hstp : should_trigger_pipeline
              (get_secret_labels service (stripVersion (resourceNameOf ev)))
              (parse_required_labels cfg.required_labels_str) = true
          · rw [if_neg (not_not_intro hstp)]
            exact Or.inr ⟨et, _, rfl, by simp⟩
          · rw [if_pos hstp]
            exact Or.inl (Or.inr (Or.inr ⟨_, _, _, rfl⟩))

/-- C2: the classifier checks the three fragments in priority order and
returns the kind of the first one contained in the method name; a method
name containing none of them makes the whole invocation return normally
as unhandled, with no effect performed. -/
theorem classify_method_spec (m : String) :
    ("CreateSecret".data <:+: m.data → classify_method m = some "secret_created")
    ∧ (¬ "CreateSecret".data <:+: m.data → "AddSecretVersion".data <:+: m.data →
        classify_method m = some "secret_updated")
    ∧ (¬ "CreateSecret".data <:+: m.data → ¬ "AddSecretVersion".data <:+: m.data →
        "DeleteSecret".data <:+: m.data → classify_method m = some "secret_deleted")
    ∧ (¬ "CreateSecret".data <:+: m.data → ¬ "AddSecretVersion".data <:+: m.data →
        ¬ "DeleteSecret".data <:+: m.data → classify_method m = none)
    ∧ (classify_method m = none → ∀ service http cfg resource,
        handle_secret_event service http cfg ⟨some ⟨some m, some resource⟩⟩ =
          (.unhandled, [])) := by
  refine ⟨?_, ?_, ?_, ?_, ?_⟩
  · intro h
    simp [classify_method, (strContains_iff m "CreateSecret").mpr h]
  · intro hC hA
    simp [classify_method, strContains_eq_false hC, (strContains_iff m "AddSecretVersion").mpr hA]
  · intro hC hA hD
    simp [classify_method, strContains_eq_false hC, strContains_eq_false hA,
      (strContains_iff m "DeleteSecret").mpr hD]
  · intro hC hA hD
    simp [classify_method, strContains_eq_false hC, strContains_eq_false hA,
      strContains_eq_false hD]
  · intro hnone service http cfg resource
    exact handle_unhandled service http cfg ⟨some ⟨some m, some resource⟩⟩ hnone

/-- Witness for C2 at concrete method names, one per kind and one
unhandled. -/
theorem classify_method_spec_witness :
    classify_method "svc.CreateSecret" = some "secret_created"
    ∧ classify_method "svc.AddSecretVersion" = some "secret_updated"
    ∧ classify_method "svc.DeleteSecret" = some "secret_deleted"
    ∧ handle_secret_event (fun _ => none) (fun _ _ => HttpResult.networkError)
        ⟨"", "u", "p", "t", "main", ""⟩ ⟨some ⟨some "svc.GetSecret", some "r"⟩⟩ =
        (.unhandled, []) :=
  ⟨(classify_method_spec "svc.CreateSecret").1 (by decide),
   (classify_method_spec "svc.AddSecretVersion").2.1 (by decide) (by decide),
   (classify_method_spec "svc.DeleteSecret").2.2.1 (by decide) (by decide) (by decide),
   (classify_method_spec "svc.GetSecret").2.2.2.2 (by decide)
     (fun _ => none) (fun _ _ => HttpResult.networkError) ⟨"", "u", "p", "t", "main", ""⟩ "r"⟩

/-- C3: with a valid configuration, a deletion event never fetches
labels, never evaluates the filter, always reaches the trigger call, and
emits the cannot-verify note exactly when a nonempty filter is
configured; the resulting outcome is exactly the outcome of the trigger
call. -/
theorem deleted_event_bypasses_filter (service : String → Option (List (String × String)))
    (http : String → List (String × String) → HttpResult) (cfg : Config) (ev : EventData)
    (hcl : classify_method (methodNameOf ev) = some "secret_deleted")
    (hp : cfg.gitlab_project_id ≠ "") (ht : cfg.gitlab_trigger_token ≠ "") :
    (∀ p, Effect.fetchLabels p ∉ (handle_secret_event service http cfg ev).2)
    ∧ (∀ l r, Effect.filterCheck l r ∉ (handle_secret_event service http cfg ev).2)
    ∧ Effect.triggerCall ∈ (handle_secret_event service http cfg ev).2
    ∧ (Effect.bypassNote ∈ (handle_secret_event service http cfg ev).2 ↔
        parse_required_labels cfg.required_labels_str ≠ [])
    ∧ (handle_secret_event service http cfg ev).1 =
        runTrigger http cfg "secret_deleted" (extract_secret_info (resourceNameOf ev)).2
          (resourceNameOf ev) := by
  by_cases hreq : parse_required_labels cfg.required_labels_str = []
  · rw [handle_nofilter service http cfg ev "secret_deleted" hcl hp ht hreq]
    simp [hreq]
  · rw [handle_deleted_filter service http cfg ev hcl hp ht hreq]
    simp [hreq]

/-- Witness for C3 at a concrete deletion event with a nonempty
configured filter: the trigger call is reached. -/
theorem deleted_event_bypasses_filter_witness :
    Effect.triggerCall ∈ (handle_secret_event (fun _ => none)
      (fun _ _ => HttpResult.networkError)
      ⟨"", "u", "p", "t", "main", "env=prod"⟩
      ⟨some ⟨some "x.DeleteSecret", some "projects/p/secrets/s"⟩⟩).2 :=
  (deleted_event_bypasses_filter (fun _ => none) (fun _ _ => HttpResult.networkError)
    ⟨"", "u", "p", "t", "main", "env=prod"⟩
    ⟨some ⟨some "x.DeleteSecret", some "projects/p/secrets/s"⟩⟩
    (by decide) (by decide) (by decide)).2.2.1

/-- C4: a failing label fetch yields the empty mapping instead of an
error; with a nonempty filter the invocation then ends filtered with no
trigger call, and with no filter the trigger call still happens. -/
theorem label_fetch_failure_fails_closed
    (service : String → Option (List (String × String))) (p : String)
    (http : String → List (String × String) → HttpResult) (cfg : Config) (ev : EventData)
    (et : String) (hcl : classify_method (methodNameOf ev) = some et)
    (hdel : et ≠ "secret_deleted")
    (hp : cfg.gitlab_project_id ≠ "") (ht : cfg.gitlab_trigger_token ≠ "") :
    (service (stripVersion p) = none → get_secret_labels service p = [])
    ∧ (parse_required_labels cfg.required_labels_str ≠ [] →
        (handle_secret_event (fun _ => none) http cfg ev).1 = .filtered
        ∧ Effect.triggerCall ∉ (handle_secret_event (fun _ => none) http cfg ev).2)
    ∧ (parse_required_labels cfg.required_labels_str = [] →
        Effect.triggerCall ∈ (handle_secret_event (fun _ => none) http cfg ev).2) := by
  refine ⟨?_, ?_, ?_⟩
  · intro hsf
    unfold get_secret_labels
    rw [hsf]
  · intro hreq
    rw [handle_filter (fun _ => none) http cfg ev et hcl hdel hp ht hreq]
    have hlabels : get_secret_labels (fun _ => none) (stripVersion (resourceNameOf ev)) = [] :=
      rfl
    rw [hlabels, should_trigger_nil_false hreq]
    simp
  · intro hreq
    rw [handle_nofilter (fun _ => none) http cfg ev et hcl hp ht hreq]
    simp

/-- Witness for C4 at a concrete creation event whose label fetch fails
while the filter env=prod is configured: the invocation ends filtered. -/
theorem label_fetch_failure_fails_closed_witness :
    (handle_secret_event (fun _ => none) (fun _ _ => HttpResult.networkError)
      ⟨"", "u", "p", "t", "main", "env=prod"⟩
      ⟨some ⟨some "x.CreateSecret", some "projects/p/secrets/s"⟩⟩).1 = .filtered :=
  ((label_fetch_failure_fails_closed (fun _ => none) "projects/p/secrets/s"
    (fun _ _ => HttpResult.networkError)
    ⟨"", "u", "p", "t", "main", "env=prod"⟩
    ⟨some ⟨some "x.CreateSecret", some "projects/p/secrets/s"⟩⟩
    "secret_created" (by decide) (by decide) (by decide) (by decide)).2.1 (by decide)).1

/-- C5: for a recognized event, a missing CI project id or trigger
credential ends the invocation normally as a configuration error with no
effect performed, whatever the event kind. -/
theorem missing_config_skips (service : String → Option (List (String × String)))
    (http : String → List (String × String) → HttpResult) (cfg : Config) (ev : EventData)
    (et : String) (hcl : classify_method (methodNameOf ev) = some et)
    (hmiss : cfg.gitlab_project_id = "" ∨ cfg.gitlab_trigger_token = "") :
    handle_secret_event service http cfg ev = (.configError, []) :=
  handle_configError service http cfg ev et hcl hmiss

/-- Witness for C5 at a concrete creation event with an empty trigger
credential. -/
theorem missing_config_skips_witness :
    handle_secret_event (fun _ => none) (fun _ _ => HttpResult.networkError)
      ⟨"", "u", "p", "", "main", ""⟩ ⟨some ⟨some "x.CreateSecret", some "r"⟩⟩ =
      (.configError, []) :=
  missing_config_skips (fun _ => none) (fun _ _ => HttpResult.networkError)
    ⟨"", "u", "p", "", "main", ""⟩ ⟨some ⟨some "x.CreateSecret", some "r"⟩⟩
    "secret_created" (by decide) (Or.inr rfl)

/-- C6: a network error or a status in 400..599 makes the trigger call
fail; a status below 400 returns the parsed body; the handler outcome is
the propagated failure only when the trigger call was made, and on a
success response the outcome carries id and web_url with the
placeholders unknown and N/A for absent fields. -/
theorem trigger_failure_spec (gu pid tok ref : String) (vars : List (String × String))
    (status : Nat) (body : RespBody)
    (service : String → Option (List (String × String)))
    (http : String → List (String × String) → HttpResult) (cfg : Config) (ev : EventData) :
    trigger_gitlab_pipeline (fun _ _ => HttpResult.networkError) gu pid tok ref vars = .error ()
    ∧ (400 ≤ status → status < 600 →
        trigger_gitlab_pipeline (fun _ _ => HttpResult.response status body) gu pid tok ref
          vars = .error ())
    ∧ (status < 400 →
        trigger_gitlab_pipeline (fun _ _ => HttpResult.response status body) gu pid tok ref
          vars = .ok body)
    ∧ ((handle_secret_event service http cfg ev).1 = .triggerError →
        Effect.triggerCall ∈ (handle_secret_event service http cfg ev).2)
    ∧ (status < 400 →
        Effect.triggerCall ∈
          (handle_secret_event service (fun _ _ => HttpResult.response status body) cfg ev).2 →
        (handle_secret_event service (fun _ _ => HttpResult.response status body) cfg ev).1 =
          Outcome.triggerOk ((body.id.map toString).getD "unknown") (body.web_url.getD "N/A"))
    ∧ (400 ≤ status → status < 600 →
        Effect.triggerCall ∈
          (handle_secret_event service (fun _ _ => HttpResult.response status body) cfg ev).2 →
        (handle_secret_event service (fun _ _ => HttpResult.response status body) cfg ev).1 =
          .triggerError) := by
  refine ⟨rfl, ?_, ?_, ?_, ?_, ?_⟩
  · intro h1 h2
    unfold trigger_gitlab_pipeline
    simp [h1, h2]
  · intro h1
    have hno : ¬ (400 ≤ status ∧ status < 600) := by omega
    unfold trigger_gitlab_pipeline
    simp [hno]
  · intro hfail
    rcases handle_shape service http cfg ev with (h | h | ⟨path, l, r, h⟩) | ⟨et, eff, h, hmem⟩
    · rw [h] at hfail; exact absurd hfail (by simp)
    · rw [h] at hfail; exact absurd hfail (by simp)
    · rw [h] at hfail; exact absurd hfail (by simp)
    · rw [h]; exact hmem
  · intro hlt hmem
    rcases handle_shape service (fun _ _ => HttpResult.response status body) cfg ev with
      (h | h | ⟨path, l, r, h⟩) | ⟨et, eff, h, hm⟩
    · rw [h] at hmem; simp at hmem
    · rw [h] at hmem; simp at hmem
    · rw [h] at hmem; simp at hmem
    · rw [h]
      exact runTrigger_response status body cfg et _ _ (by omega)
  · intro h1 h2 hmem
    rcases handle_shape service (fun _ _ => HttpResult.response status body) cfg ev with
      (h | h | ⟨path, l, r, h⟩) | ⟨et, eff, h, hm⟩
    · rw [h] at hmem; simp at hmem
    · rw [h] at hmem; simp at hmem
    · rw [h] at hmem; simp at hmem
    · rw [h]
      exact runTrigger_response_fail status body cfg et _ _ ⟨h1, h2⟩

/-- Witness for C6 at concrete calls: a 500 response fails the trigger
call and a 201 response with an empty body succeeds with the parsed
body. -/
theorem trigger_failure_spec_witness :
    trigger_gitlab_pipeline (fun _ _ => HttpResult.response 500 ⟨some 42, some "https://x/42"⟩)
      "https://gitlab.com" "p" "t" "main" [] = .error ()
    ∧ trigger_gitlab_pipeline (fun _ _ => HttpResult.response 201 ⟨none, none⟩)
      "https://gitlab.com" "p" "t" "main" [] = .ok ⟨none, none⟩ :=
  ⟨(trigger_failure_spec "https://gitlab.com" "p" "t" "main" [] 500
      ⟨some 42, some "https://x/42"⟩ (fun _ => none) (fun _ _ => HttpResult.networkError)
      ⟨"", "u", "p", "t", "main", ""⟩ ⟨none⟩).2.1 (by decide) (by decide),
   (trigger_failure_spec "https://gitlab.com" "p" "t" "main" [] 201
      ⟨none, none⟩ (fun _ => none) (fun _ _ => HttpResult.networkError)
      ⟨"", "u", "p", "t", "main", ""⟩ ⟨none⟩).2.2.1 (by decide)⟩

/-- C9: an event with a missing protoPayload envelope or a missing
methodName defaults the fields to the empty string, is classified as
unhandled, and the invocation returns normally with no effect
performed. -/
theorem missing_payload_defaults (service : String → Option (List (String × String)))
    (http : String → List (String × String) → HttpResult) (cfg : Config) (ev : EventData)
    (hm : ev.protoPayload = none ∨ (ev.protoPayload.getD ⟨none, none⟩).methodName = none) :
    methodNameOf ev = ""
    ∧ ((ev.protoPayload.getD ⟨none, none⟩).resourceName = none → resourceNameOf ev = "")
    ∧ classify_method (methodNameOf ev) = none
    ∧ handle_secret_event service http cfg ev = (.unhandled, []) := by
  have hmn : methodNameOf ev = "" := by
    rcases hm with h | h
    · simp [methodNameOf, h]
    · simp [methodNameOf, h]
  have hcl : classify_method (methodNameOf ev) = none := by
    rw [hmn]; rfl
  refine ⟨hmn, ?_, hcl, handle_unhandled service http cfg ev hcl⟩
  intro h
  simp [resourceNameOf, h]

/-- Witness for C9 at the concrete event with no protoPayload. -/
theorem missing_payload_defaults_witness :
    handle_secret_event (fun _ => none) (fun _ _ => HttpResult.networkError)
      ⟨"", "u", "p", "t", "main", ""⟩ ⟨none⟩ = (.unhandled, []) :=
  (missing_payload_defaults (fun _ => none) (fun _ _ => HttpResult.networkError)
    ⟨"", "u", "p", "t", "main", ""⟩ ⟨none⟩ (Or.inl rfl)).2.2.2

end SecretTrigger
